import Mathlib

/-!
Verification of `fdroidserver/scanner.py` against its specification.

The Python module is shallowly embedded: JSON values become an inductive
type, the signature cache becomes an explicit `Option Data` value threaded
through the load/write operations, the archive tree becomes an inductive
type, and the tree-walk disposition engine becomes state-passing functions
over an explicit scan state.  Every definition is translated from the
source; the sole spec-modelled definition (`gradle_comment_match`) is
marked as such in its doc comment.
-/

namespace Scanner

/-- JSON values, as produced by `json.load` on a signature cache file.
Objects are association lists in insertion order (Python dicts preserve
insertion order and have unique keys). -/
inductive JVal : Type where
  | jnum (n : Int)
  | jstr (s : String)
  | jarr (elems : List JVal)
  | jobj (fields : List (String × JVal))

/-- The parsed top-level JSON object held in `SignatureDataController.data`. -/
abbrev Data := List (String × JVal)

/-- `SCANNER_CACHE_VERSION = 1` (scanner.py line 55). -/
def SCANNER_CACHE_VERSION : Int := 1

/-- Association-list lookup, modelling Python `dict.get`. -/
def lookupKey (k : String) : Data → Option JVal
  | [] => none
  | (k2, v) :: rest => if k2 = k then some v else lookupKey k rest

/-- `valid_keys` from `SignatureDataController.verify_data` (line 214). -/
def valid_keys : List String := ["timestamp", "version", "signatures"]

/-- `SignatureDataController.check_data_version` (lines 170-172): raises
`SignatureCacheMalformedException` unless `data.get("version")` equals
`SCANNER_CACHE_VERSION`.  `Except.error ()` models the raised exception. -/
def check_data_version (data : Data) : Except Unit Unit :=
  match lookupKey "version" data with
  | some (JVal.jnum n) => if n = SCANNER_CACHE_VERSION then Except.ok () else Except.error ()
  | _ => Except.error ()

/-- `SignatureDataController.verify_data` (lines 213-216): deletes every
top-level key not in `valid_keys`; never raises. -/
def verify_data (data : Data) : Data :=
  data.filter (fun kv => valid_keys.contains kv.1)

/-- `SignatureDataController.write_to_cache` (lines 207-211): serializes
`self.data` verbatim with `json.dump`.  The cache file is modelled by its
parsed contents, and JSON serialization of JSON-representable data is
faithful, so the written file holds exactly `data`. -/
def write_to_cache (data : Data) : Data := data

/-- `SignatureDataController.load` (lines 187-193) over an explicit cache.
`cache = none` models an absent cache file, in which case `load_from_cache`
(lines 200-205) raises `SignatureCacheMalformedException` and `load` falls
back to `load_from_defaults` followed by `write_to_cache`.  On a present
cache file, `load` runs `load_from_cache` then `verify_data`; no other
check is performed on the success path (`check_data_version` is never
called by `load`).  Returns the in-memory `data` and the resulting cache
file contents. -/
def load (cache : Option Data) (defaults : Data) : Data × Option Data :=
  match cache with
  | some d => (verify_data d, some d)
  | none => (defaults, some (write_to_cache defaults))

/-- A bundled-defaults file used as a concrete input below. -/
def defaults0 : Data :=
  [("timestamp", JVal.jstr "2024-01-01T00:00:00+00:00"),
   ("version", JVal.jnum 1),
   ("signatures", JVal.jobj [("com.example.tracker", JVal.jobj [])])]

/-- A cache file whose `version` field is `0`, different from
`SCANNER_CACHE_VERSION = 1`, with every other field valid. -/
def staleVersionCache : Data :=
  [("timestamp", JVal.jstr "2024-01-01T00:00:00+00:00"),
   ("version", JVal.jnum 0),
   ("signatures", JVal.jobj [])]

/-- Schema validity of a cache data value, as described by the spec: only
the recognized top-level keys, with `version` equal to the engine schema
version, a string `timestamp`, and a `signatures` object. -/
def schema_valid (d : Data) : Prop :=
  (∀ kv ∈ d, kv.1 ∈ valid_keys) ∧
  lookupKey "version" d = some (JVal.jnum SCANNER_CACHE_VERSION) ∧
  (∃ ts, lookupKey "timestamp" d = some (JVal.jstr ts)) ∧
  (∃ m, lookupKey "signatures" d = some (JVal.jobj m))

lemma verify_data_eq_self {d : Data} (h : ∀ kv ∈ d, kv.1 ∈ valid_keys) :
    verify_data d = d := by
  unfold verify_data
  rw [List.filter_eq_self]
  intro kv hkv
  simpa using h kv hkv

/-- C1: the spec claims a cache file whose `version` differs from
`SCANNER_CACHE_VERSION` is always treated as malformed by `load`, which
would then fall back to bundled defaults and rewrite the cache.  The code
contradicts this: `load` never calls `check_data_version`, so on the cache
file `staleVersionCache` (version `0`, everything else valid) the loaded
data keeps `version = 0`, is not the defaults, and the cache file is not
rewritten — even though the controller's own `check_data_version` flags
exactly this file as malformed. -/
theorem signature_load_skips_version_check :
    check_data_version staleVersionCache = Except.error () ∧
    load (some staleVersionCache) defaults0 = (staleVersionCache, some staleVersionCache) ∧
    lookupKey "version" (load (some staleVersionCache) defaults0).1 = some (JVal.jnum 0) ∧
    lookupKey "signatures" (load (some staleVersionCache) defaults0).1 = some (JVal.jobj []) ∧
    lookupKey "signatures" defaults0 =
      some (JVal.jobj [("com.example.tracker", JVal.jobj [])]) ∧
    SCANNER_CACHE_VERSION = 1 := by
  refine ⟨rfl, ?_, rfl, rfl, rfl, rfl⟩
  show (verify_data staleVersionCache, some staleVersionCache) = _
  rw [verify_data_eq_self (by decide)]

/-- C3: writing a schema-valid SignatureSet to the cache and loading it
back yields data with an identical `signatures` mapping (and in fact
identical data): `load (write s) = s`. -/
theorem signature_cache_round_trip (d defaults : Data) (h : schema_valid d) :
    (load (some (write_to_cache d)) defaults).1 = d ∧
    lookupKey "signatures" (load (some (write_to_cache d)) defaults).1 =
      lookupKey "signatures" d := by
  have hv : verify_data d = d := verify_data_eq_self h.1
  constructor
  · show verify_data (write_to_cache d) = d
    simpa [write_to_cache] using hv
  · show lookupKey "signatures" (verify_data (write_to_cache d)) = _
    rw [show verify_data (write_to_cache d) = d from by simpa [write_to_cache] using hv]

/-- Witness for C3 at a concrete schema-valid cache value. -/
theorem signature_cache_round_trip_witness :
    (load (some (write_to_cache defaults0)) []).1 = defaults0 ∧
    lookupKey "signatures" (load (some (write_to_cache defaults0)) []).1 =
      lookupKey "signatures" defaults0 :=
  signature_cache_round_trip defaults0 []
    ⟨by decide,
     rfl, ⟨"2024-01-01T00:00:00+00:00", rfl⟩,
     ⟨[("com.example.tracker", JVal.jobj [])], rfl⟩⟩

/-- C5 counterexample: the claim says any unrecognized top-level key of the
data is absent from the cache file written by `write_to_cache`.  On the
concrete data below, which carries the unrecognized key `"extra"`, the
written cache file still contains `"extra"`: `write_to_cache` serializes
`self.data` verbatim and drops nothing. -/
theorem write_to_cache_keeps_unknown_keys :
    ((write_to_cache
        [("timestamp", JVal.jstr "2024-01-01T00:00:00+00:00"),
         ("version", JVal.jnum 1),
         ("signatures", JVal.jobj []),
         ("extra", JVal.jstr "x")]).map Prod.fst).contains "extra" = true := by
  rfl

/-- C5 amended: `write_to_cache` writes the data value verbatim, including
any unrecognized top-level keys; it is the `verify_data` step of a
successful cache load that drops unrecognized top-level keys, so its
result contains only the recognized keys `timestamp`, `version`,
`signatures`. -/
theorem write_to_cache_verbatim_verify_filters :
    ∀ d : Data, write_to_cache d = d ∧
      (verify_data d).all (fun kv => valid_keys.contains kv.1) = true := by
  intro d
  refine ⟨rfl, ?_⟩
  simp only [verify_data, List.all_eq_true]
  intro kv hkv
  exact (List.mem_filter.mp hkv).2

/-! ## Archive Inspector: `get_embedded_classes` (lines 76-117) -/

/-- The entry list of a zip container, as iterated by
`apk_zip.infolist()` (line 91).  Each cons cell is one entry:
`consZip` is an entry for which `zipfile.is_zipfile` is true (line 94),
carrying whether opening that nested zip raises `BadZipFile` and its own
entries; `consDex` is an entry whose leading three bytes are `b"dex"`
(line 105), carrying the class names that `dexdump` (an external tool,
line 109-113) reports for it; `consPlain` is any other entry. -/
inductive ZDir : Type where
  | nil : ZDir
  | consZip (name : String) (corrupt : Bool) (sub : ZDir) (rest : ZDir) : ZDir
  | consDex (name : String) (classes : List String) (rest : ZDir) : ZDir
  | consPlain (name : String) (rest : ZDir) : ZDir

/-- `'Max recursion depth in ZIP file reached: %s' % apkfile` (line 83). -/
def max_recursion_msg (apkfile : String) : String :=
  "Max recursion depth in ZIP file reached: " ++ apkfile

/-- `'Problem with ZIP file: %s, error %s' % (apkfile, ex)` (line 115);
the exception text is abstracted to a fixed token. -/
def bad_zip_msg (apkfile : String) : String :=
  "Problem with ZIP file: " ++ apkfile ++ ", error BadZipFile"

/-- `archive_regex = re.compile(r".*\.(aab|aar|apk|apks|jar|war|xapk|zip)$")`
(line 85); `search` with a `$` anchor holds exactly when the name ends in
one of the listed extensions. -/
def archive_regex_match (name : String) : Bool :=
  ["aab", "aar", "apk", "apks", "jar", "war", "xapk", "zip"].any
    (fun ext => name.endsWith ("." ++ ext))

/-- Boolean substring test on character lists (needle occurs somewhere). -/
def char_infix (needle : List Char) (hay : List Char) : Bool :=
  match hay with
  | [] => needle.isEmpty
  | _ :: rest => needle.isPrefixOf hay || char_infix needle rest

/-- `class_regex = re.compile(r"classes.*\.dex")` (line 86); an unanchored
`search` holds when some position starts with `classes` and `.dex` occurs
at or after the following position. -/
def class_regex_match_list (l : List Char) : Bool :=
  match l with
  | [] => false
  | _ :: rest =>
    ("classes".toList.isPrefixOf l && char_infix ".dex".toList (l.drop 7))
      || class_regex_match_list rest

def class_regex_match (name : String) : Bool :=
  class_regex_match_list name.toList

/-- The per-entry loop body of `get_embedded_classes` (lines 91-113),
run over the entries of a zip opened at recursion depth `depth`.  A
`consZip` entry recurses at `depth + 1` (line 95) — the recursive call's
own `depth > 10` check and `BadZipFile` handler are inlined here — and
adds the mismatched-extension anomaly when the entry name fails
`archive_regex` (lines 96-100).  A `consDex` entry adds the fake-name
anomaly when its name fails `class_regex` (lines 106-107) and the classes
found in the dexdump output (line 113).  Python accumulates into a `set`;
the model keeps the accumulated strings as a list, which preserves
membership and the singleton results the claims are about. -/
def scan_dir : ZDir → Nat → List String
  | ZDir.nil, _ => []
  | ZDir.consZip nm c sub rest, depth =>
      (if depth + 1 > 10 then [max_recursion_msg nm]
       else if c then [bad_zip_msg nm]
       else scan_dir sub (depth + 1))
      ++ (if archive_regex_match nm then []
          else ["ZIP file without proper file extension: " ++ nm])
      ++ scan_dir rest depth
  | ZDir.consDex nm cls rest, depth =>
      (if class_regex_match nm then [] else ["DEX file with fake name: " ++ nm])
      ++ cls ++ scan_dir rest depth
  | ZDir.consPlain _ rest, depth => scan_dir rest depth

/-- `get_embedded_classes(apkfile, depth)` (lines 76-117): the zip-bomb
guard (lines 82-83), then the `try`-wrapped entry loop whose `BadZipFile`
handler (lines 114-115) replaces everything with one anomaly string. -/
def get_embedded_classes (apkfile : String) (corrupt : Bool) (entries : ZDir)
    (depth : Nat) : List String :=
  if depth > 10 then [max_recursion_msg apkfile]
  else if corrupt then [bad_zip_msg apkfile]
  else scan_dir entries depth

/-- The nesting depth of containers that the scan can actually reach: a
corrupt nested zip is still visited (one call) but not descended into. -/
def live_depth : ZDir → Nat
  | ZDir.nil => 0
  | ZDir.consZip _ c sub rest =>
      max (if c then 1 else live_depth sub + 1) (live_depth rest)
  | ZDir.consDex _ _ rest => live_depth rest
  | ZDir.consPlain _ rest => live_depth rest

/-- A concrete chain of `n` nested zip containers. -/
def chain_dir : Nat → ZDir
  | 0 => ZDir.nil
  | n + 1 => ZDir.consZip "inner.zip" false (chain_dir n) ZDir.nil

lemma scan_dir_deep_sentinel :
    ∀ (dir : ZDir) (d : Nat), 1 ≤ live_depth dir → 11 ≤ d + live_depth dir →
      ∃ nm, max_recursion_msg nm ∈ scan_dir dir d := by
  intro dir
  induction dir with
  | nil => intro d h1 _; simp [live_depth] at h1
  | consZip nm c sub rest ihsub ihrest =>
    intro d _ h11
    by_cases hA : 11 ≤ d + (if c then 1 else live_depth sub + 1)
    · by_cases hd : d + 1 > 10
      · exact ⟨nm, by simp [scan_dir, hd]⟩
      · cases c with
        | true =>
          exfalso
          simp only [if_pos] at hA
          omega
        | false =>
          simp only [Bool.false_eq_true, if_neg (by simp : ¬ False)] at hA
          have hs1 : 1 ≤ live_depth sub := by omega
          have hs11 : 11 ≤ (d + 1) + live_depth sub := by omega
          obtain ⟨nm2, hnm2⟩ := ihsub (d + 1) hs1 hs11
          refine ⟨nm2, ?_⟩
          simp only [scan_dir, List.mem_append]
          left; left
          rw [if_neg hd]
          simpa using hnm2
    · have hB : 11 ≤ d + live_depth rest := by
        simp only [live_depth] at h11
        rcases max_cases (if c then 1 else live_depth sub + 1) (live_depth rest) with
          ⟨hm, _⟩ | ⟨hm, _⟩ <;> omega
      have hB1 : 1 ≤ live_depth rest := by omega
      obtain ⟨nm2, hnm2⟩ := ihrest d hB1 hB
      exact ⟨nm2, by simp only [scan_dir, List.mem_append]; right; exact hnm2⟩
  | consDex nm cls rest ih =>
    intro d h1 h11
    obtain ⟨nm2, hnm2⟩ := ih d h1 h11
    exact ⟨nm2, by simp only [scan_dir, List.mem_append]; right; exact hnm2⟩
  | consPlain nm rest ih =>
    intro d h1 h11
    obtain ⟨nm2, hnm2⟩ := ih d h1 h11
    exact ⟨nm2, by simpa [scan_dir] using hnm2⟩

/-- C4: archive recursion is depth-bounded.  (i) Any call on a container
nested past the bound (`depth > 10`) returns exactly the singleton
max-recursion sentinel for that branch without descending into the
entries; (ii) for any archive whose reachable container nesting exceeds
the bound (a traversable chain of more than 10 nested containers),
inspection of the whole archive returns a result set containing a
max-recursion sentinel.  Termination for every input is given by
`scan_dir`/`get_embedded_classes` being total functions. -/
theorem get_embedded_classes_depth_bound :
    (∀ (apkfile : String) (corrupt : Bool) (entries : ZDir) (depth : Nat),
        10 < depth →
        get_embedded_classes apkfile corrupt entries depth = [max_recursion_msg apkfile]) ∧
    (∀ (apkfile : String) (entries : ZDir),
        11 ≤ live_depth entries →
        ∃ nm, max_recursion_msg nm ∈ get_embedded_classes apkfile false entries 0) := by
  constructor
  · intro apkfile corrupt entries depth hd
    simp [get_embedded_classes, hd]
  · intro apkfile entries hdeep
    obtain ⟨nm, hnm⟩ := scan_dir_deep_sentinel entries 0 (by omega) (by omega)
    exact ⟨nm, by simpa [get_embedded_classes] using hnm⟩

/-- Witness for C4 at concrete inputs: a call at depth 11 cuts off with
the sentinel, and a concrete chain of 11 nested zips scanned from the top
produces a sentinel in its result. -/
theorem get_embedded_classes_depth_bound_witness :
    get_embedded_classes "deep.zip" false ZDir.nil 11 = [max_recursion_msg "deep.zip"] ∧
    ∃ nm, max_recursion_msg nm ∈ get_embedded_classes "outer.apk" false (chain_dir 11) 0 :=
  ⟨get_embedded_classes_depth_bound.1 "deep.zip" false ZDir.nil 11 (by decide),
   get_embedded_classes_depth_bound.2 "outer.apk" (chain_dir 11) (by decide)⟩

/-- C8: a corrupt container handed to the archive inspection operation
(`zipfile.BadZipFile` on opening/reading, lines 114-115) yields exactly
one descriptive anomaly string as the whole result, whatever its entries
would have been; the exception is caught inside `get_embedded_classes`,
so, the function being total, nothing propagates to the caller. -/
theorem corrupt_zip_single_anomaly :
    ∀ (apkfile : String) (entries : ZDir),
      get_embedded_classes apkfile true entries 0 = [bad_zip_msg apkfile] := by
  intro apkfile entries
  simp [get_embedded_classes]

/-! ## Tree Walker / Disposition Engine (`scan_source`, lines 344-634) -/

/-- Boolean substring test on strings (Python `sub in s`). -/
def str_contains (s : String) (sub : String) : Bool :=
  char_infix sub.toList s.toList

/-- Python `str.startswith`, computed on character lists. -/
def starts_with (s pre : String) : Bool :=
  pre.toList.isPrefixOf s.toList

/-- A path-policy table: `common.getpaths_map` output, a dict from the
configured policy entry (`k`) to the list of resolved path prefixes
(`paths`), in insertion order (lines 390-391). -/
abbrev Policy := List (String × List String)

/-- The mutable state that `scan_source`'s helpers touch: the files on
disk (by `filepath`), the `json_per_build` report lists, and the
`scanignore_worked` / `scandelete_worked` sets (lines 48-49, 393-394). -/
structure ScanState : Type where
  files : List String
  infos : List (String × String)
  warnings : List (String × String)
  errors : List (String × String)
  ignoreWorked : List String
  deleteWorked : List String

/-- Shared body of `toignore` (lines 396-402) and `todelete` (lines
404-410): iterate the policy dict in order; at the first entry with a
prefix-matching path, add that entry's key to the worked set and return
`True`; otherwise `False` with the worked set unchanged. -/
def policy_first_match (pol : Policy) (path : String) (worked : List String) :
    Bool × List String :=
  match pol with
  | [] => (false, worked)
  | (k, ps) :: rest =>
      if ps.any (fun p => starts_with path p) then
        (true, if worked.contains k then worked else k :: worked)
      else policy_first_match rest path worked

/-- `toignore(path_in_build_dir)` (lines 396-402). -/
def toignore (scanignore : Policy) (path : String) (worked : List String) :
    Bool × List String :=
  policy_first_match scanignore path worked

/-- `todelete(path_in_build_dir)` (lines 404-410); identical shape over
`scandelete`/`scandelete_worked`. -/
def todelete (scandelete : Policy) (path : String) (worked : List String) :
    Bool × List String :=
  policy_first_match scandelete path worked

/-- Whether a path matches some prefix of some policy entry (the pure
matching condition that `policy_first_match` decides). -/
def matches_policy (pol : Policy) (path : String) : Bool :=
  pol.any (fun kp => kp.2.any (fun p => starts_with path p))

/-- `ignoreproblem(what, path_in_build_dir)` (lines 412-430): log, append
an info entry, return 0. -/
def ignoreproblem (what path : String) (st : ScanState) : Nat × ScanState :=
  (0, { st with infos := st.infos ++ [("Ignoring " ++ what ++ " at " ++ path, path)] })

/-- `os.remove(filepath)`: succeeds iff the file exists, else raises
`FileNotFoundError` (modelled by `Except.error`). -/
def os_remove (filepath : String) (files : List String) : Except Unit (List String) :=
  if files.contains filepath then Except.ok (files.erase filepath) else Except.error ()

/-- `removeproblem(what, path_in_build_dir, filepath)` (lines 432-459):
log, append an info entry, `os.remove` the file with `FileNotFoundError`
caught and ignored (lines 452-458), return 0. -/
def removeproblem (what path filepath : String) (st : ScanState) : Nat × ScanState :=
  let files2 := match os_remove filepath st.files with
    | Except.ok fs => fs
    | Except.error _ => st.files
  (0, { st with
          infos := st.infos ++ [("Removing " ++ what ++ " at " ++ path, path)],
          files := files2 })

/-- `warnproblem(what, path_in_build_dir)` (lines 461-480): returns 0
immediately when `toignore` fires (lines 475-476), else appends a warning
entry and returns 0. -/
def warnproblem (scanignore : Policy) (what path : String) (st : ScanState) :
    Nat × ScanState :=
  let r := toignore scanignore path st.ignoreWorked
  if r.1 then (0, { st with ignoreWorked := r.2 })
  else (0, { st with ignoreWorked := r.2,
                     warnings := st.warnings ++ [(what, path)] })

/-- `'src/test' in path_in_build_dir or '/test/' in path_in_build_dir`
(line 504). -/
def test_path (path : String) : Bool :=
  str_contains path "src/test" || str_contains path "/test/"

/-- `handleproblem(what, path_in_build_dir, filepath)` (lines 482-510):
the disposition resolver.  `optJson` models `options.json`; the error
entry is appended to `json_per_build["errors"]` only under `--jsonenabled`
(lines 506-507), and the return value is 1 in the hard-error case either
way. -/
def handleproblem (scanignore scandelete : Policy) (optJson : Bool)
    (what path filepath : String) (st : ScanState) : Nat × ScanState :=
  let ri := toignore scanignore path st.ignoreWorked
  let st1 := { st with ignoreWorked := ri.2 }
  if ri.1 then ignoreproblem what path st1
  else
    let rd := todelete scandelete path st1.deleteWorked
    let st2 := { st1 with deleteWorked := rd.2 }
    if rd.1 then removeproblem what path filepath st2
    else if test_path path then warnproblem scanignore what path st2
    else (1, { st2 with
                 errors := if optJson then st2.errors ++ [(what, path)] else st2.errors })

lemma policy_first_match_fst (pol : Policy) (path : String) (worked : List String) :
    (policy_first_match pol path worked).1 = matches_policy pol path := by
  induction pol with
  | nil => simp [policy_first_match, matches_policy]
  | cons kp rest ih =>
    obtain ⟨k, ps⟩ := kp
    by_cases h : ps.any (fun p => starts_with path p)
    · simp [policy_first_match, matches_policy, h]
    · simp only [policy_first_match, matches_policy, List.any_cons] at ih ⊢
      simp [h, ih]

lemma policy_first_match_no_match (pol : Policy) (path : String) (worked : List String)
    (h : matches_policy pol path = false) :
    policy_first_match pol path worked = (false, worked) := by
  induction pol with
  | nil => simp [policy_first_match]
  | cons kp rest ih =>
    obtain ⟨k, ps⟩ := kp
    simp only [matches_policy, List.any_cons, Bool.or_eq_false_iff] at h
    simp only [policy_first_match, h.1, Bool.false_eq_true, if_false]
    exact ih (by simpa [matches_policy] using h.2)

lemma handleproblem_ignore (scanignore scandelete : Policy) (optJson : Bool)
    (what path filepath : String) (st : ScanState)
    (hig : matches_policy scanignore path = true) :
    (handleproblem scanignore scandelete optJson what path filepath st).1 = 0 ∧
    (handleproblem scanignore scandelete optJson what path filepath st).2.files = st.files ∧
    (handleproblem scanignore scandelete optJson what path filepath st).2.infos =
      st.infos ++ [("Ignoring " ++ what ++ " at " ++ path, path)] ∧
    (handleproblem scanignore scandelete optJson what path filepath st).2.warnings =
      st.warnings ∧
    (handleproblem scanignore scandelete optJson what path filepath st).2.errors =
      st.errors := by
  have h1 : (policy_first_match scanignore path st.ignoreWorked).1 = true := by
    rw [policy_first_match_fst]; exact hig
  simp [handleproblem, toignore, h1, ignoreproblem]

lemma handleproblem_delete (scanignore scandelete : Policy) (optJson : Bool)
    (what path filepath : String) (st : ScanState)
    (hig : matches_policy scanignore path = false)
    (hdel : matches_policy scandelete path = true) :
    (handleproblem scanignore scandelete optJson what path filepath st).1 = 0 ∧
    (handleproblem scanignore scandelete optJson what path filepath st).2.files =
      st.files.erase filepath ∧
    (handleproblem scanignore scandelete optJson what path filepath st).2.infos =
      st.infos ++ [("Removing " ++ what ++ " at " ++ path, path)] ∧
    (handleproblem scanignore scandelete optJson what path filepath st).2.warnings =
      st.warnings ∧
    (handleproblem scanignore scandelete optJson what path filepath st).2.errors =
      st.errors := by
  have h1 : policy_first_match scanignore path st.ignoreWorked = (false, st.ignoreWorked) :=
    policy_first_match_no_match scanignore path st.ignoreWorked hig
  have h2 : (policy_first_match scandelete path st.deleteWorked).1 = true := by
    rw [policy_first_match_fst]; exact hdel
  have herase : (match os_remove filepath st.files with
      | Except.ok fs => fs
      | Except.error _ => st.files) = st.files.erase filepath := by
    by_cases hmem : st.files.contains filepath = true
    · rw [os_remove, if_pos hmem]
    · rw [os_remove, if_neg hmem]
      exact (List.erase_of_not_mem (by simpa using hmem)).symm
  simp [handleproblem, toignore, todelete, h1, h2, removeproblem, herase]

lemma handleproblem_warn (scanignore scandelete : Policy) (optJson : Bool)
    (what path filepath : String) (st : ScanState)
    (hig : matches_policy scanignore path = false)
    (hdel : matches_policy scandelete path = false)
    (htest : test_path path = true) :
    (handleproblem scanignore scandelete optJson what path filepath st).1 = 0 ∧
    (handleproblem scanignore scandelete optJson what path filepath st).2.files = st.files ∧
    (handleproblem scanignore scandelete optJson what path filepath st).2.infos = st.infos ∧
    (handleproblem scanignore scandelete optJson what path filepath st).2.warnings =
      st.warnings ++ [(what, path)] ∧
    (handleproblem scanignore scandelete optJson what path filepath st).2.errors =
      st.errors := by
  have h1 : policy_first_match scanignore path st.ignoreWorked = (false, st.ignoreWorked) :=
    policy_first_match_no_match scanignore path st.ignoreWorked hig
  have h2 : policy_first_match scandelete path st.deleteWorked = (false, st.deleteWorked) :=
    policy_first_match_no_match scandelete path st.deleteWorked hdel
  simp [handleproblem, toignore, todelete, h1, h2, htest, warnproblem]

lemma handleproblem_error (scanignore scandelete : Policy) (optJson : Bool)
    (what path filepath : String) (st : ScanState)
    (hig : matches_policy scanignore path = false)
    (hdel : matches_policy scandelete path = false)
    (htest : test_path path = false) :
    (handleproblem scanignore scandelete optJson what path filepath st).1 = 1 ∧
    (handleproblem scanignore scandelete optJson what path filepath st).2.files = st.files ∧
    (handleproblem scanignore scandelete optJson what path filepath st).2.infos = st.infos ∧
    (handleproblem scanignore scandelete optJson what path filepath st).2.warnings =
      st.warnings ∧
    (handleproblem scanignore scandelete optJson what path filepath st).2.errors =
      (if optJson then st.errors ++ [(what, path)] else st.errors) := by
  have h1 : policy_first_match scanignore path st.ignoreWorked = (false, st.ignoreWorked) :=
    policy_first_match_no_match scanignore path st.ignoreWorked hig
  have h2 : policy_first_match scandelete path st.deleteWorked = (false, st.deleteWorked) :=
    policy_first_match_no_match scandelete path st.deleteWorked hdel
  simp [handleproblem, toignore, todelete, h1, h2, htest]

/-- C2: the fixed disposition precedence ignore > delete > test-path warn
> hard error for every finding routed through `handleproblem`.  An
ignore-matching path is recorded as info only, the file is kept, and
nothing is counted; a delete-matching non-ignored path deletes the file
and records info, with no warning or error; a non-ignored, non-deleted
test path records a warning and contributes zero; otherwise the finding
is a hard error contributing exactly one. -/
theorem handleproblem_disposition_precedence (scanignore scandelete : Policy)
    (optJson : Bool) (what path filepath : String) (st : ScanState) :
    (matches_policy scanignore path = true →
      (handleproblem scanignore scandelete optJson what path filepath st).1 = 0 ∧
      (handleproblem scanignore scandelete optJson what path filepath st).2.files =
        st.files ∧
      (handleproblem scanignore scandelete optJson what path filepath st).2.infos =
        st.infos ++ [("Ignoring " ++ what ++ " at " ++ path, path)] ∧
      (handleproblem scanignore scandelete optJson what path filepath st).2.warnings =
        st.warnings ∧
      (handleproblem scanignore scandelete optJson what path filepath st).2.errors =
        st.errors) ∧
    (matches_policy scanignore path = false → matches_policy scandelete path = true →
      (handleproblem scanignore scandelete optJson what path filepath st).1 = 0 ∧
      (handleproblem scanignore scandelete optJson what path filepath st).2.files =
        st.files.erase filepath ∧
      (handleproblem scanignore scandelete optJson what path filepath st).2.infos =
        st.infos ++ [("Removing " ++ what ++ " at " ++ path, path)] ∧
      (handleproblem scanignore scandelete optJson what path filepath st).2.warnings =
        st.warnings ∧
      (handleproblem scanignore scandelete optJson what path filepath st).2.errors =
        st.errors) ∧
    (matches_policy scanignore path = false → matches_policy scandelete path = false →
      test_path path = true →
      (handleproblem scanignore scandelete optJson what path filepath st).1 = 0 ∧
      (handleproblem scanignore scandelete optJson what path filepath st).2.files =
        st.files ∧
      (handleproblem scanignore scandelete optJson what path filepath st).2.warnings =
        st.warnings ++ [(what, path)] ∧
      (handleproblem scanignore scandelete optJson what path filepath st).2.errors =
        st.errors) ∧
    (matches_policy scanignore path = false → matches_policy scandelete path = false →
      test_path path = false →
      (handleproblem scanignore scandelete optJson what path filepath st).1 = 1 ∧
      (handleproblem scanignore scandelete optJson what path filepath st).2.files =
        st.files ∧
      (handleproblem scanignore scandelete optJson what path filepath st).2.warnings =
        st.warnings) := by
  refine ⟨?_, ?_, ?_, ?_⟩
  · intro hig
    exact handleproblem_ignore scanignore scandelete optJson what path filepath st hig
  · intro hig hdel
    exact handleproblem_delete scanignore scandelete optJson what path filepath st hig hdel
  · intro hig hdel htest
    obtain ⟨a, b, _, c, d⟩ :=
      handleproblem_warn scanignore scandelete optJson what path filepath st hig hdel htest
    exact ⟨a, b, c, d⟩
  · intro hig hdel htest
    obtain ⟨a, b, _, c, _⟩ :=
      handleproblem_error scanignore scandelete optJson what path filepath st hig hdel htest
    exact ⟨a, b, c⟩

/-- Witness for C2: the theorem applied on concrete findings exercising
all four dispositions. -/
theorem handleproblem_disposition_precedence_witness :
    ((handleproblem [("vendor", ["vendor/"])] [] false "w" "vendor/x.so" "b/vendor/x.so"
        ⟨["b/vendor/x.so"], [], [], [], [], []⟩).1 = 0 ∧
     (handleproblem [("vendor", ["vendor/"])] [] false "w" "vendor/x.so" "b/vendor/x.so"
        ⟨["b/vendor/x.so"], [], [], [], [], []⟩).2.files = ["b/vendor/x.so"]) ∧
    ((handleproblem [] [("gen", ["gen/"])] false "w" "gen/x.so" "b/gen/x.so"
        ⟨["b/gen/x.so"], [], [], [], [], []⟩).1 = 0 ∧
     (handleproblem [] [("gen", ["gen/"])] false "w" "gen/x.so" "b/gen/x.so"
        ⟨["b/gen/x.so"], [], [], [], [], []⟩).2.files = List.erase ["b/gen/x.so"] "b/gen/x.so") ∧
    ((handleproblem [] [] false "w" "app/src/test/x.so" "b/app/src/test/x.so"
        ⟨[], [], [], [], [], []⟩).1 = 0 ∧
     (handleproblem [] [] false "w" "app/src/test/x.so" "b/app/src/test/x.so"
        ⟨[], [], [], [], [], []⟩).2.warnings = [("w", "app/src/test/x.so")]) ∧
    (handleproblem [] [] false "w" "app/x.so" "b/app/x.so"
        ⟨[], [], [], [], [], []⟩).1 = 1 := by
  refine ⟨⟨?_, ?_⟩, ⟨?_, ?_⟩, ⟨?_, ?_⟩, ?_⟩
  · exact (handleproblem_disposition_precedence [("vendor", ["vendor/"])] [] false
      "w" "vendor/x.so" "b/vendor/x.so" ⟨["b/vendor/x.so"], [], [], [], [], []⟩).1
      (by decide) |>.1
  · exact (handleproblem_disposition_precedence [("vendor", ["vendor/"])] [] false
      "w" "vendor/x.so" "b/vendor/x.so" ⟨["b/vendor/x.so"], [], [], [], [], []⟩).1
      (by decide) |>.2.1
  · exact (handleproblem_disposition_precedence [] [("gen", ["gen/"])] false
      "w" "gen/x.so" "b/gen/x.so" ⟨["b/gen/x.so"], [], [], [], [], []⟩).2.1
      (by decide) (by decide) |>.1
  · exact (handleproblem_disposition_precedence [] [("gen", ["gen/"])] false
      "w" "gen/x.so" "b/gen/x.so" ⟨["b/gen/x.so"], [], [], [], [], []⟩).2.1
      (by decide) (by decide) |>.2.1
  · exact (handleproblem_disposition_precedence [] [] false
      "w" "app/src/test/x.so" "b/app/src/test/x.so" ⟨[], [], [], [], [], []⟩).2.2.1
      (by decide) (by decide) (by decide) |>.1
  · exact (handleproblem_disposition_precedence [] [] false
      "w" "app/src/test/x.so" "b/app/src/test/x.so" ⟨[], [], [], [], [], []⟩).2.2.1
      (by decide) (by decide) (by decide) |>.2.2.1
  · exact (handleproblem_disposition_precedence [] [] false
      "w" "app/x.so" "b/app/x.so" ⟨[], [], [], [], [], []⟩).2.2.2
      (by decide) (by decide) (by decide) |>.1

/-- C9: the delete disposition is idempotent with respect to file
absence.  When the target file is already absent, `os.remove` raises
`FileNotFoundError`, `removeproblem` catches it (lines 452-458), still
records the info entry, and returns 0; consequently two findings deleting
the same file both return 0, the second finding the file already gone,
with both info entries recorded and no error entry ever produced. -/
theorem removeproblem_idempotent_absence (what path filepath : String) (st : ScanState)
    (habs : st.files.contains filepath = false) :
    os_remove filepath st.files = Except.error () ∧
    removeproblem what path filepath st =
      (0, { st with infos := st.infos ++ [("Removing " ++ what ++ " at " ++ path, path)] }) ∧
    (removeproblem what path filepath
        (removeproblem what path filepath st).2).1 = 0 ∧
    (removeproblem what path filepath
        (removeproblem what path filepath st).2).2.infos =
      st.infos ++ [("Removing " ++ what ++ " at " ++ path, path),
                   ("Removing " ++ what ++ " at " ++ path, path)] ∧
    (removeproblem what path filepath
        (removeproblem what path filepath st).2).2.errors = st.errors := by
  have hrem : os_remove filepath st.files = Except.error () := by
    rw [os_remove, if_neg (by simpa using habs)]
  have hstep : removeproblem what path filepath st =
      (0, { st with infos := st.infos ++ [("Removing " ++ what ++ " at " ++ path, path)] }) := by
    rw [removeproblem, hrem]
  refine ⟨hrem, hstep, ?_, ?_, ?_⟩ <;>
    simp [hstep, removeproblem, os_remove, habs]

/-- Witness for C9 at a concrete state in which the file is absent. -/
theorem removeproblem_idempotent_absence_witness :
    os_remove "b/x.gz" ["b/y.gz"] = Except.error () ∧
    removeproblem "gzip file archive" "x.gz" "b/x.gz" ⟨["b/y.gz"], [], [], [], [], []⟩ =
      (0, { files := ["b/y.gz"],
            infos := [("Removing gzip file archive at x.gz", "x.gz")],
            warnings := [], errors := [], ignoreWorked := [], deleteWorked := [] }) ∧
    (removeproblem "gzip file archive" "x.gz" "b/x.gz"
        (removeproblem "gzip file archive" "x.gz" "b/x.gz"
          ⟨["b/y.gz"], [], [], [], [], []⟩).2).1 = 0 ∧
    (removeproblem "gzip file archive" "x.gz" "b/x.gz"
        (removeproblem "gzip file archive" "x.gz" "b/x.gz"
          ⟨["b/y.gz"], [], [], [], [], []⟩).2).2.infos =
      [("Removing gzip file archive at x.gz", "x.gz"),
       ("Removing gzip file archive at x.gz", "x.gz")] ∧
    (removeproblem "gzip file archive" "x.gz" "b/x.gz"
        (removeproblem "gzip file archive" "x.gz" "b/x.gz"
          ⟨["b/y.gz"], [], [], [], [], []⟩).2).2.errors = [] := by
  have h := removeproblem_idempotent_absence "gzip file archive" "x.gz" "b/x.gz"
    ⟨["b/y.gz"], [], [], [], [], []⟩ (by decide)
  simpa using h

/-! ## `scan_source` accounting: unused policy prefixes (lines 546-634) -/

/-- One disposition-relevant step of the `os.walk` loop: a finding routed
through `handleproblem` (lines 572-618), an unconditional
`removeproblem` for build-tool artifacts and APKs (lines 566-569), or a
direct `warnproblem` for an executable binary (line 622). -/
inductive WalkEvent : Type where
  | finding (what path filepath : String) : WalkEvent
  | directRemove (what path filepath : String) : WalkEvent
  | directWarn (what path : String) : WalkEvent

/-- The `path_in_build_dir` of an event. -/
def event_path : WalkEvent → String
  | WalkEvent.finding _ p _ => p
  | WalkEvent.directRemove _ p _ => p
  | WalkEvent.directWarn _ p => p

/-- Dispatch one walk event against the scan state. -/
def run_event (scanignore scandelete : Policy) (optJson : Bool) (e : WalkEvent)
    (st : ScanState) : Nat × ScanState :=
  match e with
  | WalkEvent.finding what p f => handleproblem scanignore scandelete optJson what p f st
  | WalkEvent.directRemove what p f => removeproblem what p f st
  | WalkEvent.directWarn what p => warnproblem scanignore what p st

/-- The walk over the source tree, accumulating `count` exactly as
`scan_source` does (`count += handleproblem(...)`; the direct
`removeproblem`/`warnproblem` calls do not add to `count`, and indeed
return 0). -/
def process_events (scanignore scandelete : Policy) (optJson : Bool) :
    List WalkEvent → Nat × ScanState → Nat × ScanState
  | [], acc => acc
  | e :: rest, acc =>
      let r := run_event scanignore scandelete optJson e acc.2
      process_events scanignore scandelete optJson rest (acc.1 + r.1, r.2)

/-- The post-walk loops of `scan_source` (lines 624-632): one extra hard
error per policy entry whose key never entered the worked set. -/
def unused_policy_errors (scanignore scandelete : Policy) (st : ScanState) : Nat :=
  (scanignore.filter (fun kp => !(st.ignoreWorked.contains kp.1))).length +
  (scandelete.filter (fun kp => !(st.deleteWorked.contains kp.1))).length

/-- The violation count returned by `scan_source` (line 634): the walk
total plus the unused-policy errors. -/
def scan_source_count (scanignore scandelete : Policy) (optJson : Bool)
    (events : List WalkEvent) (st0 : ScanState) : Nat :=
  (process_events scanignore scandelete optJson events (0, st0)).1 +
    unused_policy_errors scanignore scandelete
      (process_events scanignore scandelete optJson events (0, st0)).2

lemma policy_first_match_transparent (rows1 rows2 : Policy) (k : String)
    (ps : List String) (path : String)
    (h : ps.any (fun p => starts_with path p) = false) :
    ∀ w, policy_first_match (rows1 ++ (k, ps) :: rows2) path w =
      policy_first_match (rows1 ++ rows2) path w := by
  induction rows1 with
  | nil =>
    intro w
    simp only [List.nil_append, policy_first_match, h, Bool.false_eq_true, if_false]
  | cons kp rest ih =>
    intro w
    obtain ⟨k2, ps2⟩ := kp
    by_cases h2 : ps2.any (fun p => starts_with path p)
    · simp [policy_first_match, h2]
    · simp only [List.cons_append, policy_first_match, h2, Bool.false_eq_true, if_false]
      exact ih w

lemma policy_first_match_worked_subset (rows : Policy) (path : String)
    (w : List String) (x : String)
    (hx : x ∈ (policy_first_match rows path w).2) :
    x ∈ w ∨ x ∈ rows.map Prod.fst := by
  induction rows generalizing w with
  | nil => exact Or.inl (by simpa [policy_first_match] using hx)
  | cons kp rest ih =>
    obtain ⟨k2, ps2⟩ := kp
    by_cases h2 : ps2.any (fun p => starts_with path p)
    · simp only [policy_first_match, h2, if_true] at hx
      by_cases hw : w.contains k2
      · simp only [hw, if_true] at hx
        exact Or.inl hx
      · simp only [hw, Bool.false_eq_true, if_false, List.mem_cons] at hx
        rcases hx with h | h
        · exact Or.inr (by simp [h])
        · exact Or.inl h
    · simp only [policy_first_match, h2, Bool.false_eq_true, if_false] at hx
      rcases ih w hx with h | h
      · exact Or.inl h
      · exact Or.inr (by simp [h] )

lemma warnproblem_transparent (rows1 rows2 : Policy) (k : String) (ps : List String)
    (what path : String) (st : ScanState)
    (h : ps.any (fun p => starts_with path p) = false) :
    warnproblem (rows1 ++ (k, ps) :: rows2) what path st =
      warnproblem (rows1 ++ rows2) what path st := by
  have hL := policy_first_match_transparent rows1 rows2 k ps path h
  simp only [warnproblem, toignore, hL]

lemma handleproblem_transparent_ignore (rows1 rows2 scandelete : Policy) (k : String)
    (ps : List String) (optJson : Bool) (what path filepath : String) (st : ScanState)
    (h : ps.any (fun p => starts_with path p) = false) :
    handleproblem (rows1 ++ (k, ps) :: rows2) scandelete optJson what path filepath st =
      handleproblem (rows1 ++ rows2) scandelete optJson what path filepath st := by
  have hL := policy_first_match_transparent rows1 rows2 k ps path h
  simp only [handleproblem, toignore, warnproblem, hL]

lemma handleproblem_transparent_delete (scanignore rows1 rows2 : Policy) (k : String)
    (ps : List String) (optJson : Bool) (what path filepath : String) (st : ScanState)
    (h : ps.any (fun p => starts_with path p) = false) :
    handleproblem scanignore (rows1 ++ (k, ps) :: rows2) optJson what path filepath st =
      handleproblem scanignore (rows1 ++ rows2) optJson what path filepath st := by
  have hL := policy_first_match_transparent rows1 rows2 k ps path h
  simp only [handleproblem, todelete, hL]

lemma process_events_transparent_ignore (rows1 rows2 scandelete : Policy) (k : String)
    (ps : List String) (optJson : Bool) (events : List WalkEvent)
    (h : ∀ e ∈ events, ps.any (fun p => starts_with (event_path e) p) = false) :
    ∀ acc, process_events (rows1 ++ (k, ps) :: rows2) scandelete optJson events acc =
      process_events (rows1 ++ rows2) scandelete optJson events acc := by
  induction events with
  | nil => intro acc; rfl
  | cons e rest ih =>
    intro acc
    have he : ps.any (fun p => starts_with (event_path e) p) = false :=
      h e (List.mem_cons_self e rest)
    have hrest : ∀ e2 ∈ rest, ps.any (fun p => starts_with (event_path e2) p) = false :=
      fun e2 h2 => h e2 (List.mem_cons_of_mem e h2)
    have hev : run_event (rows1 ++ (k, ps) :: rows2) scandelete optJson e acc.2 =
        run_event (rows1 ++ rows2) scandelete optJson e acc.2 := by
      cases e with
      | finding what p f =>
        exact handleproblem_transparent_ignore rows1 rows2 scandelete k ps optJson
          what p f acc.2 he
      | directRemove what p f => rfl
      | directWarn what p =>
        exact warnproblem_transparent rows1 rows2 k ps what p acc.2 he
    simp only [process_events, hev]
    exact ih hrest _

lemma process_events_transparent_delete (scanignore rows1 rows2 : Policy) (k : String)
    (ps : List String) (optJson : Bool) (events : List WalkEvent)
    (h : ∀ e ∈ events, ps.any (fun p => starts_with (event_path e) p) = false) :
    ∀ acc, process_events scanignore (rows1 ++ (k, ps) :: rows2) optJson events acc =
      process_events scanignore (rows1 ++ rows2) optJson events acc := by
  induction events with
  | nil => intro acc; rfl
  | cons e rest ih =>
    intro acc
    have he : ps.any (fun p => starts_with (event_path e) p) = false :=
      h e (List.mem_cons_self e rest)
    have hrest : ∀ e2 ∈ rest, ps.any (fun p => starts_with (event_path e2) p) = false :=
      fun e2 h2 => h e2 (List.mem_cons_of_mem e h2)
    have hev : run_event scanignore (rows1 ++ (k, ps) :: rows2) optJson e acc.2 =
        run_event scanignore (rows1 ++ rows2) optJson e acc.2 := by
      cases e with
      | finding what p f =>
        exact handleproblem_transparent_delete scanignore rows1 rows2 k ps optJson
          what p f acc.2 he
      | directRemove what p f => rfl
      | directWarn what p => rfl
    simp only [process_events, hev]
    exact ih hrest _

lemma warnproblem_ignoreWorked_subset (scanignore : Policy) (what path : String)
    (st : ScanState) (x : String)
    (hx : x ∈ (warnproblem scanignore what path st).2.ignoreWorked) :
    x ∈ st.ignoreWorked ∨ x ∈ scanignore.map Prod.fst := by
  by_cases h : (toignore scanignore path st.ignoreWorked).1 = true
  · simp only [warnproblem, h, if_true] at hx
    exact policy_first_match_worked_subset scanignore path st.ignoreWorked x hx
  · simp only [warnproblem, h, if_false] at hx
    exact policy_first_match_worked_subset scanignore path st.ignoreWorked x hx

lemma handleproblem_ignoreWorked_subset (scanignore scandelete : Policy) (optJson : Bool)
    (what path filepath : String) (st : ScanState) (x : String)
    (hx : x ∈ (handleproblem scanignore scandelete optJson what path filepath st).2.ignoreWorked) :
    x ∈ st.ignoreWorked ∨ x ∈ scanignore.map Prod.fst := by
  have base := policy_first_match_worked_subset scanignore path st.ignoreWorked x
  by_cases h1 : (toignore scanignore path st.ignoreWorked).1 = true
  · simp only [handleproblem, h1, if_true, ignoreproblem] at hx
    exact base hx
  · by_cases h2 : (todelete scandelete path st.deleteWorked).1 = true
    · simp only [handleproblem, h1, if_false, h2, if_true, removeproblem] at hx
      exact base hx
    · by_cases h3 : test_path path = true
      · simp only [handleproblem, h1, if_false, h2, h3, if_true] at hx
        have step := warnproblem_ignoreWorked_subset scanignore what path
          { st with ignoreWorked := (toignore scanignore path st.ignoreWorked).2,
                    deleteWorked := (todelete scandelete path st.deleteWorked).2 } x hx
        rcases step with h | h
        · exact base h
        · exact Or.inr h
      · simp only [handleproblem, h1, if_false, h2, h3] at hx
        exact base hx

lemma warnproblem_deleteWorked (scanignore : Policy) (what path : String)
    (st : ScanState) :
    (warnproblem scanignore what path st).2.deleteWorked = st.deleteWorked := by
  by_cases h : (toignore scanignore path st.ignoreWorked).1 = true
  · simp [warnproblem, h]
  · simp [warnproblem, h]

lemma handleproblem_deleteWorked_subset (scanignore scandelete : Policy) (optJson : Bool)
    (what path filepath : String) (st : ScanState) (x : String)
    (hx : x ∈ (handleproblem scanignore scandelete optJson what path filepath st).2.deleteWorked) :
    x ∈ st.deleteWorked ∨ x ∈ scandelete.map Prod.fst := by
  have base := policy_first_match_worked_subset scandelete path st.deleteWorked x
  by_cases h1 : (toignore scanignore path st.ignoreWorked).1 = true
  · simp only [handleproblem, h1, if_true, ignoreproblem] at hx
    exact Or.inl hx
  · by_cases h2 : (todelete scandelete path st.deleteWorked).1 = true
    · simp only [handleproblem, h1, if_false, h2, if_true, removeproblem] at hx
      exact base hx
    · by_cases h3 : test_path path = true
      · simp only [handleproblem, h1, if_false, h2, h3, if_true,
          Bool.false_eq_true] at hx
        rw [warnproblem_deleteWorked] at hx
        exact base hx
      · simp only [handleproblem, h1, if_false, h2, h3] at hx
        exact base hx

lemma run_event_ignoreWorked_subset (scanignore scandelete : Policy) (optJson : Bool)
    (e : WalkEvent) (st : ScanState) (x : String)
    (hx : x ∈ (run_event scanignore scandelete optJson e st).2.ignoreWorked) :
    x ∈ st.ignoreWorked ∨ x ∈ scanignore.map Prod.fst := by
  cases e with
  | finding what p f =>
    exact handleproblem_ignoreWorked_subset scanignore scandelete optJson what p f st x hx
  | directRemove what p f =>
    exact Or.inl (by simpa [run_event, removeproblem] using hx)
  | directWarn what p =>
    exact warnproblem_ignoreWorked_subset scanignore what p st x hx

lemma run_event_deleteWorked_subset (scanignore scandelete : Policy) (optJson : Bool)
    (e : WalkEvent) (st : ScanState) (x : String)
    (hx : x ∈ (run_event scanignore scandelete optJson e st).2.deleteWorked) :
    x ∈ st.deleteWorked ∨ x ∈ scandelete.map Prod.fst := by
  cases e with
  | finding what p f =>
    exact handleproblem_deleteWorked_subset scanignore scandelete optJson what p f st x hx
  | directRemove what p f =>
    exact Or.inl (by simpa [run_event, removeproblem] using hx)
  | directWarn what p =>
    refine Or.inl ?_
    simp only [run_event] at hx
    rwa [warnproblem_deleteWorked] at hx

lemma process_events_ignoreWorked_subset (scanignore scandelete : Policy) (optJson : Bool)
    (events : List WalkEvent) :
    ∀ (acc : Nat × ScanState) (x : String),
      x ∈ (process_events scanignore scandelete optJson events acc).2.ignoreWorked →
      x ∈ acc.2.ignoreWorked ∨ x ∈ scanignore.map Prod.fst := by
  induction events with
  | nil => intro acc x hx; exact Or.inl hx
  | cons e rest ih =>
    intro acc x hx
    simp only [process_events] at hx
    rcases ih _ x hx with h | h
    · exact run_event_ignoreWorked_subset scanignore scandelete optJson e acc.2 x h
    · exact Or.inr h

lemma process_events_deleteWorked_subset (scanignore scandelete : Policy) (optJson : Bool)
    (events : List WalkEvent) :
    ∀ (acc : Nat × ScanState) (x : String),
      x ∈ (process_events scanignore scandelete optJson events acc).2.deleteWorked →
      x ∈ acc.2.deleteWorked ∨ x ∈ scandelete.map Prod.fst := by
  induction events with
  | nil => intro acc x hx; exact Or.inl hx
  | cons e rest ih =>
    intro acc x hx
    simp only [process_events] at hx
    rcases ih _ x hx with h | h
    · exact run_event_deleteWorked_subset scanignore scandelete optJson e acc.2 x h
    · exact Or.inr h

lemma filter_length_middle (rows1 rows2 : Policy) (kp : String × List String)
    (pred : String × List String → Bool) (hk : pred kp = true) :
    ((rows1 ++ kp :: rows2).filter pred).length =
      ((rows1 ++ rows2).filter pred).length + 1 := by
  simp [List.filter_append, List.filter_cons, hk]
  omega

lemma nodup_middle_key {l1 l2 : List String} {k : String}
    (h : (l1 ++ k :: l2).Nodup) : k ∉ l1 ∧ k ∉ l2 := by
  rw [List.nodup_append] at h
  obtain ⟨_, h2, hdis⟩ := h
  refine ⟨fun hk => hdis hk (List.mem_cons_self k l2), ?_⟩
  exact (List.nodup_cons.mp h2).1

/-- C6: every configured ignore or delete policy entry whose prefixes
match no scanned path fires nowhere, so the post-walk loops report it as
exactly one additional hard error: the final violation count with the
unused entry present is the count without it plus one.  Stated for both
the `scanignore` table and the `scandelete` table. -/
theorem unused_policy_prefix_extra_error :
    (∀ (rows1 rows2 scandelete : Policy) (k : String) (ps : List String)
       (optJson : Bool) (events : List WalkEvent) (st0 : ScanState),
       (((rows1 ++ (k, ps) :: rows2).map Prod.fst).Nodup) →
       (∀ e ∈ events, ps.any (fun p => starts_with (event_path e) p) = false) →
       st0.ignoreWorked = [] →
       scan_source_count (rows1 ++ (k, ps) :: rows2) scandelete optJson events st0 =
         scan_source_count (rows1 ++ rows2) scandelete optJson events st0 + 1) ∧
    (∀ (scanignore rows1 rows2 : Policy) (k : String) (ps : List String)
       (optJson : Bool) (events : List WalkEvent) (st0 : ScanState),
       (((rows1 ++ (k, ps) :: rows2).map Prod.fst).Nodup) →
       (∀ e ∈ events, ps.any (fun p => starts_with (event_path e) p) = false) →
       st0.deleteWorked = [] →
       scan_source_count scanignore (rows1 ++ (k, ps) :: rows2) optJson events st0 =
         scan_source_count scanignore (rows1 ++ rows2) optJson events st0 + 1) := by
  constructor
  · intro rows1 rows2 scandelete k ps optJson events st0 hnd hno hst0
    have hproc := process_events_transparent_ignore rows1 rows2 scandelete k ps optJson
      events hno (0, st0)
    have hkeys : k ∉ rows1.map Prod.fst ∧ k ∉ rows2.map Prod.fst := by
      apply nodup_middle_key
      simpa using hnd
    have hknot : k ∉ (process_events (rows1 ++ rows2) scandelete optJson events
        (0, st0)).2.ignoreWorked := by
      intro hk
      rcases process_events_ignoreWorked_subset (rows1 ++ rows2) scandelete optJson
        events (0, st0) k hk with h | h
      · rw [hst0] at h; exact List.not_mem_nil k h
      · rcases (by simpa using h : k ∈ rows1.map Prod.fst ∨ k ∈ rows2.map Prod.fst) with
          h2 | h2
        · exact hkeys.1 h2
        · exact hkeys.2 h2
    have hcont : (process_events (rows1 ++ rows2) scandelete optJson events
        (0, st0)).2.ignoreWorked.contains k = false := by
      simpa using hknot
    unfold scan_source_count unused_policy_errors
    rw [hproc]
    rw [filter_length_middle rows1 rows2 (k, ps) _ (by simpa using hknot)]
    omega
  · intro scanignore rows1 rows2 k ps optJson events st0 hnd hno hst0
    have hproc := process_events_transparent_delete scanignore rows1 rows2 k ps optJson
      events hno (0, st0)
    have hkeys : k ∉ rows1.map Prod.fst ∧ k ∉ rows2.map Prod.fst := by
      apply nodup_middle_key
      simpa using hnd
    have hknot : k ∉ (process_events scanignore (rows1 ++ rows2) optJson events
        (0, st0)).2.deleteWorked := by
      intro hk
      rcases process_events_deleteWorked_subset scanignore (rows1 ++ rows2) optJson
        events (0, st0) k hk with h | h
      · rw [hst0] at h; exact List.not_mem_nil k h
      · rcases (by simpa using h : k ∈ rows1.map Prod.fst ∨ k ∈ rows2.map Prod.fst) with
          h2 | h2
        · exact hkeys.1 h2
        · exact hkeys.2 h2
    have hcont : (process_events scanignore (rows1 ++ rows2) optJson events
        (0, st0)).2.deleteWorked.contains k = false := by
      simpa using hknot
    unfold scan_source_count unused_policy_errors
    rw [hproc]
    rw [filter_length_middle rows1 rows2 (k, ps) _ (by simpa using hknot)]
    omega

/-- Witness for C6: a one-entry ignore table and a one-entry delete table,
neither matching the single scanned finding, each add exactly one to the
final count. -/
theorem unused_policy_prefix_extra_error_witness :
    scan_source_count [("nomatch", ["nomatch/"])] [] false
        [WalkEvent.finding "shared library" "a.so" "b/a.so"] ⟨[], [], [], [], [], []⟩ =
      scan_source_count [] [] false
        [WalkEvent.finding "shared library" "a.so" "b/a.so"] ⟨[], [], [], [], [], []⟩ + 1 ∧
    scan_source_count [] [("stale", ["stale/"])] false
        [WalkEvent.finding "shared library" "a.so" "b/a.so"] ⟨[], [], [], [], [], []⟩ =
      scan_source_count [] [] false
        [WalkEvent.finding "shared library" "a.so" "b/a.so"] ⟨[], [], [], [], [], []⟩ + 1 :=
  ⟨unused_policy_prefix_extra_error.1 [] [] [] "nomatch" ["nomatch/"] false
      [WalkEvent.finding "shared library" "a.so" "b/a.so"] ⟨[], [], [], [], [], []⟩
      (by decide) (by decide) rfl,
   unused_policy_prefix_extra_error.2 [] [] [] "stale" ["stale/"] false
      [WalkEvent.finding "shared library" "a.so" "b/a.so"] ⟨[], [], [], [], [], []⟩
      (by decide) (by decide) rfl⟩

/-! ## `scan_binary` tracker matching (lines 307-341) -/

/-- An Exodus tracker record: only the `code_signature` field matters to
the control flow under scrutiny (line 330); the compiled regex of a
tracker is `search t.code_signature`, where `search` abstracts
`re.compile(sig).search` as an oracle supplied as a parameter. -/
structure Tracker : Type where
  code_signature : String

/-- `_detect_tracker(sig, tracker, class_list)` (lines 320-325): return
the tracker at the first class that its compiled signature matches, else
`None`. -/
def detect_tracker (sig : String → Bool) (tracker : Tracker) :
    List String → Option Tracker
  | [] => none
  | clazz :: rest =>
      if sig clazz then some tracker else detect_tracker sig tracker rest

/-- The `extract_signatures` block of `scan_binary` (lines 318-337): build
`args` from the trackers whose `code_signature` is longer than 3
characters (line 330), run `_detect_tracker` on each, keep the non-`None`
results.  `search sig clazz` models `extract_signatures[1][index]`, the
regex compiled from `sig`, searching `clazz`. -/
def detected_trackers (search : String → String → Bool) (sigs : List Tracker)
    (result : List String) : List Tracker :=
  ((sigs.filter (fun t => t.code_signature.length > 3)).map
      (fun t => detect_tracker (search t.code_signature) t result)).filterMap id

/-- `problems += len(trackers)` (lines 336-337): the tracker contribution
to the problem count returned by `scan_binary`. -/
def scan_binary_tracker_count (search : String → String → Bool) (sigs : List Tracker)
    (result : List String) : Nat :=
  (detected_trackers search sigs result).length

/-- C10: a tracker whose `code_signature` has length three or fewer is
filtered out of `args` before any matching, for every match oracle and
every set of discovered class names: the detected-tracker list and the
problem count are exactly those of the tracker list without it. -/
theorem short_code_signature_skipped (search : String → String → Bool)
    (sigs1 sigs2 : List Tracker) (t : Tracker) (result : List String)
    (hshort : t.code_signature.length ≤ 3) :
    detected_trackers search (sigs1 ++ t :: sigs2) result =
      detected_trackers search (sigs1 ++ sigs2) result ∧
    scan_binary_tracker_count search (sigs1 ++ t :: sigs2) result =
      scan_binary_tracker_count search (sigs1 ++ sigs2) result := by
  have hfil : (sigs1 ++ t :: sigs2).filter (fun t2 => t2.code_signature.length > 3) =
      (sigs1 ++ sigs2).filter (fun t2 => t2.code_signature.length > 3) := by
    simp [List.filter_append, List.filter_cons, Nat.not_lt.mpr hshort]
  constructor
  · unfold detected_trackers
    rw [hfil]
  · unfold scan_binary_tracker_count detected_trackers
    rw [hfil]

/-- Witness for C10: a tracker with the 3-character signature `"ads"`
never matches, even though a discovered class would match it, while a
longer signature does. -/
theorem short_code_signature_skipped_witness :
    detected_trackers (fun sig clazz => char_infix sig.toList clazz.toList)
        ([⟨"com/ads/tracker"⟩] ++ ⟨"ads"⟩ :: []) ["Lcom/ads/tracker/Main"] =
      detected_trackers (fun sig clazz => char_infix sig.toList clazz.toList)
        ([⟨"com/ads/tracker"⟩] ++ []) ["Lcom/ads/tracker/Main"] ∧
    scan_binary_tracker_count (fun sig clazz => char_infix sig.toList clazz.toList)
        ([⟨"com/ads/tracker"⟩] ++ ⟨"ads"⟩ :: []) ["Lcom/ads/tracker/Main"] =
      scan_binary_tracker_count (fun sig clazz => char_infix sig.toList clazz.toList)
        ([⟨"com/ads/tracker"⟩] ++ []) ["Lcom/ads/tracker/Main"] :=
  short_code_signature_skipped (fun sig clazz => char_infix sig.toList clazz.toList)
    [⟨"com/ads/tracker"⟩] [] ⟨"ads"⟩ ["Lcom/ads/tracker/Main"] (by decide)

/-! ## Gradle Build File Analyzer: `MAVEN_URL_REGEX` and the URL pass
(lines 51-52, 369-388, 600-614)

`MAVEN_URL_REGEX` is
`\smaven\s*(?:{.*?(?:setUrl|url)|\((?:url)?)\s*=?\s*(?:uri)?\(?\s*["']?([^\s"']+)["']?[^})]*[)}]`
compiled with `re.DOTALL`.  It is embedded as a backtracking matcher over
character lists: every sub-pattern yields its candidate remainders in the
exact preference order of the Python regex engine (greedy pieces longest
first, the lazy piece shortest first, alternatives left first), pieces are
sequenced through a first-success combinator, and `findall` scans
left-to-right restarting after each match.  The model was differentially
validated against CPython's `re` on the declaration forms, comment
placements, and randomized inputs. -/

/-- Python `\s` on ASCII: space, tab, newline, vertical tab, form feed,
carriage return. -/
def pySpace (c : Char) : Bool :=
  c = ' ' || c = '\t' || c = '\n' || c = Char.ofNat 11 || c = Char.ofNat 12 || c = '\r'

/-- The character class `["']`. -/
def is_quote (c : Char) : Bool := c = '"' || c = Char.ofNat 39

/-- The capture class `[^\s"']`. -/
def url_char (c : Char) : Bool := !(pySpace c || is_quote c)

/-- The class `[^})]`. -/
def not_close (c : Char) : Bool := !(c = '}' || c = ')')

/-- The final class `[)}]`. -/
def is_close (c : Char) : Bool := c = ')' || c = '}'

/-- A literal: one candidate remainder when it is a prefix, else none. -/
def litP (lit : List Char) (cs : List Char) : List (List Char) :=
  if lit.isPrefixOf cs then [cs.drop lit.length] else []

/-- One character of a class. -/
def charP (p : Char → Bool) (cs : List Char) : List (List Char) :=
  match cs with
  | [] => []
  | c :: rest => if p c then [rest] else []

/-- Greedy `p*`: candidate remainders, longest consumption first. -/
def starGreedy (p : Char → Bool) (cs : List Char) : List (List Char) :=
  match cs with
  | [] => [[]]
  | c :: rest => if p c then starGreedy p rest ++ [c :: rest] else [c :: rest]

/-- Greedy `x?`: with-`x` candidates first, then the untouched input. -/
def optP (inner : List Char → List (List Char)) (cs : List Char) : List (List Char) :=
  inner cs ++ [cs]

/-- Lazy `.*?(?:setUrl|url)` under DOTALL: positions in ascending order,
`setUrl` preferred over `url` at each position. -/
def lazyUntilUrl (cs : List Char) : List (List Char) :=
  (litP "setUrl".toList cs ++ litP "url".toList cs) ++
    (match cs with
     | [] => []
     | _ :: rest => lazyUntilUrl rest)

/-- Greedy `([^\s"']+)` capture: all (captured, remainder) splits with a
nonempty all-class prefix, longest capture first. -/
def plusSplits (p : Char → Bool) (cs : List Char) : List (List Char × List Char) :=
  match cs with
  | [] => []
  | c :: rest =>
      if p c then
        ((plusSplits p rest).map (fun pr => (c :: pr.1, pr.2))) ++ [([c], rest)]
      else []

/-- Backtracking sequencing: try candidates in preference order, return
the first continuation success. -/
def tryAll {α β : Type} (cands : List α) (k : α → Option β) : Option β :=
  match cands with
  | [] => none
  | c :: rest =>
      match k c with
      | some r => some r
      | none => tryAll rest k

/-- The alternation `(?:{.*?(?:setUrl|url)|\((?:url)?)`. -/
def altPart (cs : List Char) : List (List Char) :=
  (litP ['{'] cs).flatMap lazyUntilUrl ++
    (litP ['('] cs).flatMap (optP (litP "url".toList))

/-- One anchored attempt of `MAVEN_URL_REGEX` at the current position:
pieces in the regex's order, returning the captured group and the
remainder after the match. -/
def matchAt (cs : List Char) : Option (List Char × List Char) :=
  tryAll (charP pySpace cs) (fun r1 =>
  tryAll (litP "maven".toList r1) (fun r2 =>
  tryAll (starGreedy pySpace r2) (fun r3 =>
  tryAll (altPart r3) (fun r4 =>
  tryAll (starGreedy pySpace r4) (fun r5 =>
  tryAll (optP (litP ['=']) r5) (fun r6 =>
  tryAll (starGreedy pySpace r6) (fun r7 =>
  tryAll (optP (litP "uri".toList) r7) (fun r8 =>
  tryAll (optP (litP ['(']) r8) (fun r9 =>
  tryAll (starGreedy pySpace r9) (fun r10 =>
  tryAll (optP (charP is_quote) r10) (fun r11 =>
  tryAll (plusSplits url_char r11) (fun capr =>
  tryAll (optP (charP is_quote) capr.2) (fun r13 =>
  tryAll (starGreedy not_close r13) (fun r14 =>
  tryAll (charP is_close r14) (fun r15 =>
  some (capr.1, r15))))))))))))))))

/-- `findall`: scan positions left to right, resume after each match; the
fuel argument (instantiated with the input length, which bounds the number
of steps since every match consumes at least one character) makes the
recursion structural. -/
def findallAux : Nat → List Char → List String
  | 0, _ => []
  | _ + 1, [] => []
  | fuel + 1, c :: rest =>
      match matchAt (c :: rest) with
      | some (cap, r) => String.mk cap :: findallAux fuel r
      | none => findallAux fuel rest

/-- `MAVEN_URL_REGEX.findall` (line 612). -/
def maven_url_findall (cs : List Char) : List String := findallAux cs.length cs

/-- Modelled from the spec: `common.gradle_comment` lives in
`fdroidserver/common.py`, which is not part of the sources here; per the
spec it matches full-line comments, i.e. a line whose start, after
optional spaces, is `//` (`re.match` anchors at the line start). -/
def gradle_comment_match (line : String) : Bool :=
  "//".toList.isPrefixOf (line.toList.dropWhile (fun c => c = ' '))

/-- Scan for the first `*/` and return what follows it (the engine of the
non-greedy `/\*.*?\*/` body). -/
def findClose : List Char → Option (List Char)
  | [] => none
  | [_] => none
  | c1 :: c2 :: rest =>
      if c1 = '*' ∧ c2 = '/' then some rest else findClose (c2 :: rest)

/-- `re.sub(r"/\*.*?\*/", "", text, flags=re.DOTALL)` (line 611): at each
`/*` with a later `*/`, drop through the nearest `*/` and continue; a
`/*` with no close stays (the regex cannot match there or anywhere after).
Fuel (instantiated with the text length, an upper bound on the steps)
keeps the recursion structural. -/
def stripBCAux : Nat → List Char → List Char
  | 0, cs => cs
  | _ + 1, [] => []
  | _ + 1, [c] => [c]
  | fuel + 1, c1 :: c2 :: rest =>
      if c1 = '/' ∧ c2 = '*' then
        match findClose rest with
        | some rest2 => stripBCAux fuel rest2
        | none => c1 :: c2 :: rest
      else c1 :: stripBCAux fuel (c2 :: rest)

def stripBC (cs : List Char) : List Char := stripBCAux cs.length cs

/-- Lines 610-612: drop full-line comments, join, strip block comments,
extract the repository URLs. -/
def process_gradle_urls (lines : List String) : List String :=
  maven_url_findall
    (stripBC (String.join (lines.filter (fun l => !(gradle_comment_match l)))).toList)

/-- `allowed_repos` (lines 369-388): scheme-qualified trusted repository
prefixes; each compiled pattern `^https://<repo>/*` (or `^file://...`)
used with `re.match` holds exactly when the URL starts with the prefix. -/
def allowed_repos : List String :=
  ["https://repo1.maven.org/maven2",
   "https://jcenter.bintray.com",
   "https://jitpack.io",
   "https://www.jitpack.io",
   "https://repo.maven.apache.org/maven2",
   "https://oss.jfrog.org/artifactory/oss-snapshot-local",
   "https://oss.sonatype.org/content/repositories/snapshots",
   "https://oss.sonatype.org/content/repositories/releases",
   "https://oss.sonatype.org/content/groups/public",
   "https://clojars.org/repo",
   "https://repo.clojars.org",
   "https://s3.amazonaws.com/repo.commonsware.com",
   "https://plugins.gradle.org/m2",
   "https://maven.google.com",
   "file:///usr/share/maven-repo"]

/-- `any(r.match(url) for r in allowed_repos)` (line 613). -/
def allowed_repo_match (url : String) : Bool :=
  allowed_repos.any (fun r => starts_with url r)

/-- The URL loop of the `.gradle` branch (lines 612-614): every extracted
URL failing the allow-list is routed through `handleproblem` as an
`unknown maven repo` finding. -/
def gradle_repo_check (scanignore scandelete : Policy) (optJson : Bool)
    (path filepath : String) : List String → Nat × ScanState → Nat × ScanState
  | [], acc => acc
  | url :: rest, acc =>
      if allowed_repo_match url then
        gradle_repo_check scanignore scandelete optJson path filepath rest acc
      else
        gradle_repo_check scanignore scandelete optJson path filepath rest
          (acc.1 + (handleproblem scanignore scandelete optJson
              ("unknown maven repo " ++ url) path filepath acc.2).1,
           (handleproblem scanignore scandelete optJson
              ("unknown maven repo " ++ url) path filepath acc.2).2)

/-- The three declaration forms of the claim, as build-script text, with
the URL symbolic. -/
def templ_url (u : List Char) : List Char :=
  [' ', 'm', 'a', 'v', 'e', 'n', ' ', '{', ' ', 'u', 'r', 'l', ' ', '=', ' ', '"'] ++
    u ++ ['"', ' ', '}']

def templ_setUrl (u : List Char) : List Char :=
  [' ', 'm', 'a', 'v', 'e', 'n', ' ', '{', ' ', 's', 'e', 't', 'U', 'r', 'l', '(', '"'] ++
    u ++ ['"', ')', ' ', '}']

def templ_uri (u : List Char) : List Char :=
  [' ', 'm', 'a', 'v', 'e', 'n', '(', 'u', 'r', 'l', ' ', '=', ' ', 'u', 'r', 'i', '(', '"'] ++
    u ++ ['"', ')', ')']

lemma plusSplits_head (p : Char → Bool) (u : List Char) (c : Char) (v : List Char)
    (hne : u ≠ []) (hu : ∀ x ∈ u, p x = true) (hc : p c = false) :
    ∃ tail, plusSplits p (u ++ c :: v) = (u, c :: v) :: tail := by
  induction u with
  | nil => exact absurd rfl hne
  | cons x u2 ih =>
    have hx : p x = true := hu x (List.mem_cons_self x u2)
    cases u2 with
    | nil =>
      refine ⟨[], ?_⟩
      simp [plusSplits, hx, hc]
    | cons y u3 =>
      obtain ⟨tail2, htail2⟩ := ih (by simp) (fun z hz => hu z (List.mem_cons_of_mem x hz))
      refine ⟨tail2.map (fun pr => (x :: pr.1, pr.2)) ++ [([x], (y :: u3) ++ c :: v)], ?_⟩
      have hstep : plusSplits p ((x :: y :: u3) ++ c :: v) =
          (plusSplits p ((y :: u3) ++ c :: v)).map (fun pr => (x :: pr.1, pr.2)) ++
            [([x], (y :: u3) ++ c :: v)] := by
        rw [List.cons_append, plusSplits, if_pos hx]
      rw [hstep, htail2]
      simp

lemma matchAt_templ_url (u : List Char) (hne : u ≠ [])
    (hu : ∀ x ∈ u, url_char x = true) :
    matchAt (templ_url u) = some (u, []) := by
  obtain ⟨tail, htail⟩ := plusSplits_head url_char u '"' [' ', '}'] hne hu (by decide)
  unfold templ_url
  simp only [List.cons_append, List.nil_append] at htail ⊢
  simp [matchAt, tryAll, charP, litP, starGreedy, optP, altPart, lazyUntilUrl,
    pySpace, is_quote, url_char, not_close, is_close]
  rw [htail]
  simp [tryAll, starGreedy, pySpace, not_close, is_close, is_quote]

lemma matchAt_templ_setUrl (u : List Char) (hne : u ≠ [])
    (hu : ∀ x ∈ u, url_char x = true) :
    matchAt (templ_setUrl u) = some (u, [' ', '}']) := by
  obtain ⟨tail, htail⟩ := plusSplits_head url_char u '"' [')', ' ', '}'] hne hu (by decide)
  unfold templ_setUrl
  simp only [List.cons_append, List.nil_append] at htail ⊢
  simp [matchAt, tryAll, charP, litP, starGreedy, optP, altPart, lazyUntilUrl,
    pySpace, is_quote, url_char, not_close, is_close]
  rw [htail]
  simp [tryAll, starGreedy, pySpace, not_close, is_close, is_quote]

lemma matchAt_templ_uri (u : List Char) (hne : u ≠ [])
    (hu : ∀ x ∈ u, url_char x = true) :
    matchAt (templ_uri u) = some (u, [')']) := by
  obtain ⟨tail, htail⟩ := plusSplits_head url_char u '"' [')', ')'] hne hu (by decide)
  unfold templ_uri
  simp only [List.cons_append, List.nil_append] at htail ⊢
  simp [matchAt, tryAll, charP, litP, starGreedy, optP, altPart, lazyUntilUrl,
    pySpace, is_quote, url_char, not_close, is_close]
  rw [htail]
  simp [tryAll, starGreedy, pySpace, not_close, is_close, is_quote]

lemma findallAux_nil : ∀ f, findallAux f [] = [] := by
  intro f; cases f <;> rfl

lemma findallAux_rbrace : ∀ f, findallAux f ['}'] = [] := by
  intro f
  match f with
  | 0 => rfl
  | g + 1 => simp [findallAux, (by decide : matchAt ['}'] = none), findallAux_nil]

lemma findallAux_sp_rbrace : ∀ f, findallAux f [' ', '}'] = [] := by
  intro f
  match f with
  | 0 => rfl
  | g + 1 => simp [findallAux, (by decide : matchAt [' ', '}'] = none), findallAux_rbrace]

lemma findallAux_rparen : ∀ f, findallAux f [')'] = [] := by
  intro f
  match f with
  | 0 => rfl
  | g + 1 => simp [findallAux, (by decide : matchAt [')'] = none), findallAux_nil]

lemma findall_templ_url (u : List Char) (hne : u ≠ [])
    (hu : ∀ x ∈ u, url_char x = true) :
    maven_url_findall (templ_url u) = [String.mk u] := by
  have hm := matchAt_templ_url u hne hu
  have hl : (templ_url u).length = (u.length + 18) + 1 := by
    simp [templ_url]
  unfold maven_url_findall
  rw [hl]
  unfold templ_url at hm ⊢
  simp only [List.cons_append, List.nil_append] at hm ⊢
  simp [findallAux, hm, findallAux_nil]

lemma findall_templ_setUrl (u : List Char) (hne : u ≠ [])
    (hu : ∀ x ∈ u, url_char x = true) :
    maven_url_findall (templ_setUrl u) = [String.mk u] := by
  have hm := matchAt_templ_setUrl u hne hu
  have hl : (templ_setUrl u).length = (u.length + 20) + 1 := by
    simp [templ_setUrl]
  unfold maven_url_findall
  rw [hl]
  unfold templ_setUrl at hm ⊢
  simp only [List.cons_append, List.nil_append] at hm ⊢
  simp [findallAux, hm, findallAux_sp_rbrace,
    (by decide : matchAt [' ', '}'] = none), (by decide : matchAt ['}'] = none)]

lemma findall_templ_uri (u : List Char) (hne : u ≠ [])
    (hu : ∀ x ∈ u, url_char x = true) :
    maven_url_findall (templ_uri u) = [String.mk u] := by
  have hm := matchAt_templ_uri u hne hu
  have hl : (templ_uri u).length = (u.length + 20) + 1 := by
    simp [templ_uri]
  unfold maven_url_findall
  rw [hl]
  unfold templ_uri at hm ⊢
  simp only [List.cons_append, List.nil_append] at hm ⊢
  simp [findallAux, hm, findallAux_rparen, (by decide : matchAt [')'] = none)]

lemma findClose_length : ∀ (l l2 : List Char), findClose l = some l2 →
    l2.length + 2 ≤ l.length := by
  intro l
  induction l with
  | nil => intro l2 h; simp [findClose] at h
  | cons c1 rest ih =>
    intro l2 h
    cases rest with
    | nil => simp [findClose] at h
    | cons c2 rest2 =>
      by_cases hc : c1 = '*' ∧ c2 = '/'
      · rw [findClose, if_pos hc] at h
        cases h
        simp
      · rw [findClose, if_neg hc] at h
        have := ih l2 h
        simp at this ⊢
        omega

lemma stripBCAux_nil : ∀ f, stripBCAux f [] = [] := by
  intro f; cases f <;> rfl

lemma stripBCAux_fuel : ∀ (fuel : Nat) (cs : List Char), cs.length ≤ fuel →
    stripBCAux fuel cs = stripBCAux cs.length cs := by
  intro fuel
  induction fuel using Nat.strong_induction_on with
  | _ fuel ih =>
    intro cs hlen
    match fuel, cs with
    | 0, cs =>
      have : cs = [] := List.length_eq_zero.mp (Nat.le_zero.mp hlen)
      rw [this]
      rfl
    | g + 1, [] => rw [stripBCAux_nil, stripBCAux_nil]
    | g + 1, [c] => rfl
    | g + 1, c1 :: c2 :: rest =>
      have hlen2 : rest.length + 2 ≤ g + 1 := by simpa using hlen
      by_cases hc : c1 = '/' ∧ c2 = '*'
      · show stripBCAux (g + 1) (c1 :: c2 :: rest) =
          stripBCAux (rest.length + 1 + 1) (c1 :: c2 :: rest)
        rw [stripBCAux, stripBCAux, if_pos hc, if_pos hc]
        cases hfc : findClose rest with
        | none => rfl
        | some rest2 =>
          have hr2 := findClose_length rest rest2 hfc
          show stripBCAux g rest2 = stripBCAux (rest.length + 1) rest2
          rw [ih g (by omega) rest2 (by omega),
              ih (rest.length + 1) (by omega) rest2 (by omega)]
      · show stripBCAux (g + 1) (c1 :: c2 :: rest) =
          stripBCAux (rest.length + 1 + 1) (c1 :: c2 :: rest)
        rw [stripBCAux, stripBCAux, if_neg hc, if_neg hc]
        rw [ih g (by omega) (c2 :: rest) (by simp; omega),
            ih (rest.length + 1) (by omega) (c2 :: rest) (by simp)]

lemma findClose_clean : ∀ (c : List Char) (b : List Char), (∀ x ∈ c, x ≠ '*') →
    findClose (c ++ '*' :: '/' :: b) = some b := by
  intro c
  induction c with
  | nil => intro b _; simp [findClose]
  | cons x c2 ih =>
    intro b hc
    have hx : x ≠ '*' := hc x (List.mem_cons_self x c2)
    cases c2 with
    | nil =>
      simp only [List.cons_append, List.nil_append]
      rw [findClose, if_neg (by simp [hx])]
      simp [findClose]
    | cons y c3 =>
      simp only [List.cons_append]
      rw [findClose, if_neg (by simp [hx])]
      have := ih b (fun z hz => hc z (List.mem_cons_of_mem x hz))
      simpa using this

lemma stripBCAux_clean_front : ∀ (a : List Char), (∀ x ∈ a, x ≠ '/' ∧ x ≠ '*') →
    ∀ (fuel : Nat) (cs : List Char), a.length ≤ fuel →
    stripBCAux fuel (a ++ cs) = a ++ stripBCAux (fuel - a.length) cs := by
  intro a
  induction a with
  | nil => intro _ fuel cs _; simp
  | cons x a2 ih =>
    intro ha fuel cs hlen
    have hx : x ≠ '/' := (ha x (List.mem_cons_self x a2)).1
    rcases fuel with _ | g
    · simp at hlen
    · have hlen2 : a2.length ≤ g := by simp at hlen; omega
      cases h2 : a2 ++ cs with
      | nil =>
        have ha2 : a2 = [] := by cases a2 <;> simp_all
        have hcs : cs = [] := by cases cs <;> simp_all
        subst ha2; subst hcs
        simp [stripBCAux, stripBCAux_nil]
      | cons y t =>
        show stripBCAux (g + 1) (x :: (a2 ++ cs)) = _
        rw [h2]
        rw [stripBCAux, if_neg (by simp [hx])]
        rw [← h2]
        rw [ih (fun z hz => ha z (List.mem_cons_of_mem x hz)) g cs hlen2]
        simp only [List.cons_append, List.length_cons]
        have harith : g + 1 - (a2.length + 1) = g - a2.length := by omega
        rw [harith]

lemma stripBC_block_comment (a c b : List Char)
    (ha : ∀ x ∈ a, x ≠ '/' ∧ x ≠ '*') (hc : ∀ x ∈ c, x ≠ '*') :
    stripBC (a ++ '/' :: '*' :: (c ++ '*' :: '/' :: b)) = stripBC (a ++ b) := by
  unfold stripBC
  have hL : (a ++ '/' :: '*' :: (c ++ '*' :: '/' :: b)).length =
      a.length + (c.length + b.length + 4) := by simp; omega
  rw [hL]
  rw [stripBCAux_clean_front a ha _ _ (by omega)]
  have hsub : a.length + (c.length + b.length + 4) - a.length =
      (c.length + b.length + 2) + 1 + 1 := by omega
  rw [hsub]
  have hstep : stripBCAux ((c.length + b.length + 2) + 1 + 1)
      ('/' :: '*' :: (c ++ '*' :: '/' :: b)) =
      stripBCAux ((c.length + b.length + 2) + 1) b := by
    rw [stripBCAux, if_pos ⟨rfl, rfl⟩, findClose_clean c b hc]
  rw [hstep]
  rw [stripBCAux_fuel _ b (by omega)]
  have hR : (a ++ b).length = a.length + b.length := by simp
  rw [hR, stripBCAux_clean_front a ha _ _ (by omega)]
  congr 1
  congr 1
  omega

lemma gradle_repo_check_count (optJson : Bool) (path filepath : String)
    (htest : test_path path = false) :
    ∀ (urls : List String) (acc : Nat × ScanState),
      (gradle_repo_check [] [] optJson path filepath urls acc).1 =
        acc.1 + (urls.filter (fun url => !(allowed_repo_match url))).length := by
  intro urls
  induction urls with
  | nil => intro acc; simp [gradle_repo_check]
  | cons url rest ih =>
    intro acc
    by_cases hal : allowed_repo_match url
    · simp [gradle_repo_check, hal, ih]
    · have hret := (handleproblem_error [] [] optJson ("unknown maven repo " ++ url)
        path filepath acc.2 rfl rfl htest).1
      simp only [gradle_repo_check, hal, Bool.false_eq_true, if_false]
      rw [ih, hret]
      simp [hal]
      omega

/-- C7: the Gradle URL pass.  (i) A full-line comment line contributes
nothing: extraction over a line list with such a line equals extraction
without it.  (ii) A `/* ... */` block comment is stripped before
extraction: a text with a block-commented region equals the text without
it (stated for a region whose body contains no `*` and a prefix free of
`/` and `*`, so the region is exactly one comment).  (iii) Each of the
three declaration forms `maven { url = "X" }`, `maven { setUrl("X") }`,
and `maven(url = uri("X"))` yields exactly its URL, for every nonempty URL
over the capture class `[^\s"']`.  (iv) Every extracted URL failing the
fixed allow-list becomes a finding routed through `handleproblem`: with no
path policy and a non-test path, the URL loop contributes exactly one hard
error per non-allow-listed URL. -/
theorem maven_url_extraction_spec :
    (∀ (pre post : List String) (line : String), gradle_comment_match line = true →
        process_gradle_urls (pre ++ line :: post) = process_gradle_urls (pre ++ post)) ∧
    (∀ a c b : List Char, (∀ x ∈ a, x ≠ '/' ∧ x ≠ '*') → (∀ x ∈ c, x ≠ '*') →
        stripBC (a ++ '/' :: '*' :: (c ++ '*' :: '/' :: b)) = stripBC (a ++ b)) ∧
    (∀ u : List Char, u ≠ [] → (∀ x ∈ u, url_char x = true) →
        maven_url_findall (templ_url u) = [String.mk u] ∧
        maven_url_findall (templ_setUrl u) = [String.mk u] ∧
        maven_url_findall (templ_uri u) = [String.mk u]) ∧
    (∀ (optJson : Bool) (path filepath : String) (urls : List String) (st : ScanState),
        test_path path = false →
        (gradle_repo_check [] [] optJson path filepath urls (0, st)).1 =
          (urls.filter (fun url => !(allowed_repo_match url))).length) := by
  refine ⟨?_, stripBC_block_comment, ?_, ?_⟩
  · intro pre post line h
    simp [process_gradle_urls, List.filter_append, List.filter_cons, h]
  · intro u hne hu
    exact ⟨findall_templ_url u hne hu, findall_templ_setUrl u hne hu,
      findall_templ_uri u hne hu⟩
  · intro optJson path filepath urls st htest
    simpa using gradle_repo_check_count optJson path filepath htest urls (0, st)

/-- Witness for C7 at concrete inputs: a commented-out line is skipped, a
block-commented region is stripped, each declaration form extracts the
concrete URL, and a script declaring one untrusted and one trusted repo
contributes exactly one error. -/
theorem maven_url_extraction_spec_witness :
    process_gradle_urls (["x"] ++ "  // y" :: []) = process_gradle_urls (["x"] ++ []) ∧
    stripBC ([' '] ++ '/' :: '*' :: ([' ', 'y'] ++ '*' :: '/' :: ['z'])) =
      stripBC ([' '] ++ ['z']) ∧
    maven_url_findall (templ_url "https://evil.example/repo".toList) =
      [String.mk "https://evil.example/repo".toList] ∧
    maven_url_findall (templ_setUrl "https://evil.example/repo".toList) =
      [String.mk "https://evil.example/repo".toList] ∧
    maven_url_findall (templ_uri "https://evil.example/repo".toList) =
      [String.mk "https://evil.example/repo".toList] ∧
    (gradle_repo_check [] [] false "build.gradle" "b/build.gradle"
        ["https://evil.example/repo", "https://jitpack.io"]
        (0, ⟨[], [], [], [], [], []⟩)).1 =
      (["https://evil.example/repo", "https://jitpack.io"].filter
        (fun url => !(allowed_repo_match url))).length := by
  have h3 := maven_url_extraction_spec.2.2.1 "https://evil.example/repo".toList
    (by decide) (by decide)
  exact ⟨maven_url_extraction_spec.1 ["x"] [] "  // y" (by decide),
    maven_url_extraction_spec.2.1 [' '] [' ', 'y'] ['z'] (by decide) (by decide),
    h3.1, h3.2.1, h3.2.2,
    maven_url_extraction_spec.2.2.2 false "build.gradle" "b/build.gradle"
      ["https://evil.example/repo", "https://jitpack.io"] ⟨[], [], [], [], [], []⟩
      (by decide)⟩

end Scanner
